import Mathlib

/-!
Verification development for the visual-scripting (node-based behavior graph)
subsystem of the Vivid engine, a shallow embedding of
src/core/scripting/VisualScripting.js.

JavaScript numbers are modelled as rationals plus a NaN marker; JS object
references are opaque naturals; null and undefined are distinguished.
JS objects used as string-keyed maps (property tables, the graph store, the
node-type registry, graph variables) are modelled as insertion-ordered
association lists, matching JS Map / plain-object key ordering.
-/

namespace Vivid

/-- A JavaScript value as it occurs in the scripting module: a number,
NaN, a boolean, an opaque object reference, a three-component vector
(THREE.Vector3 published by GetPosition), null, or undefined. -/
inductive Value where
  | num (q : ℚ)
  | nan
  | boolV (b : Bool)
  | obj (o : Nat)
  | vec3 (x y z : ℚ)
  | null
  | undefined
deriving DecidableEq

/-- JS truthiness of a value (0, NaN, false, null, undefined are falsy). -/
def truthy : Value → Bool
  | .num q => decide (q ≠ 0)
  | .nan => false
  | .boolV b => b
  | .obj _ => true
  | .vec3 _ _ _ => true
  | .null => false
  | .undefined => false

/-- JS logical-or `a || b`: the left operand when truthy, otherwise the right. -/
def jsOr (a b : Value) : Value := if truthy a then a else b

/-- JS ToNumber coercion on the modelled values; objects and undefined
coerce to NaN, null and false to 0, true to 1. -/
def jsToNum : Value → Value
  | .num q => .num q
  | .nan => .nan
  | .boolV b => .num (if b then 1 else 0)
  | .obj _ => .nan
  | .vec3 _ _ _ => .nan
  | .null => .num 0
  | .undefined => .nan

/-- JS numeric addition `a + b` restricted to the numeric fragment the
module exercises (both operands coerced with ToNumber; NaN propagates). -/
def jsAdd (a b : Value) : Value :=
  match jsToNum a, jsToNum b with
  | .num x, .num y => .num (x + y)
  | _, _ => .nan

/-- JS numeric multiplication, same coercions as jsAdd. -/
def jsMul (a b : Value) : Value :=
  match jsToNum a, jsToNum b with
  | .num x, .num y => .num (x * y)
  | _, _ => .nan

/-- A declared property of a node type: `{ type, value, input?, output? }`
in the source. The flags are carried as data only; execution never reads
them (absent flags in the JS object read as false). -/
structure PropDef where
  ptype : String
  value : Value
  input : Bool := false
  output : Bool := false
deriving DecidableEq

/-- One slot of a node instance's property table. Normally a property
descriptor object; the built-in execute functions overwrite whole slots
with raw values (for example `node.properties.Result = a + b`), which
replaces the descriptor with the bare value. -/
inductive PropEntry where
  | descr (d : PropDef)
  | raw (v : Value)
deriving DecidableEq

/-- Look up the first association-list entry for a key. -/
def alistGet {α : Type} (m : List (String × α)) (k : String) : Option α :=
  match m with
  | [] => none
  | (k', v) :: rest => if k' = k then some v else alistGet rest k

/-- `m[k] = v` on a JS object / Map: replace the value in place when the
key exists (keeping its position), otherwise append the key. -/
def alistSet {α : Type} (m : List (String × α)) (k : String) (v : α) :
    List (String × α) :=
  match m with
  | [] => [(k, v)]
  | (k', v') :: rest =>
    if k' = k then (k, v) :: rest else (k', v') :: alistSet rest k v

/-- A node instance: id, type name, editor position, property table.
(The `getInputValue` closure attached in the source is behaviour shared by
all nodes and is modelled as the function `getInputValue` below.) -/
@[ext]
structure NodeInst where
  id : String
  type : String
  position : ℚ × ℚ
  properties : List (String × PropEntry)
deriving DecidableEq

/-- `node.getInputValue(name)`, i.e. `this.properties[name]?.value`:
undefined when the slot is absent; the descriptor's value when present;
undefined when the slot has been overwritten with a raw value (reading
`.value` off a primitive or a foreign object yields undefined, and
optional chaining short-circuits on null). -/
def getInputValue (n : NodeInst) (name : String) : Value :=
  match alistGet n.properties name with
  | some (.descr d) => d.value
  | some (.raw _) => .undefined
  | none => .undefined

/-- `node.properties[k] = v` with a raw (non-descriptor) right-hand side,
as the built-in execute functions do. -/
def setRawProp (n : NodeInst) (k : String) (v : Value) : NodeInst :=
  { n with properties := alistSet n.properties k (.raw v) }

/-- A directed connection between two named ports. -/
structure Connection where
  id : String
  sourceNodeId : String
  sourceOutput : String
  targetNodeId : String
  targetInput : String
deriving DecidableEq

/-- A behavior graph: node instances, connections, and the graph-scoped
variables Map (as its ordered entry list). The source field is named
`variables`, which Lean reserves, so it is called `vars` here. -/
@[ext]
structure Graph where
  id : String
  objectId : String
  nodes : List NodeInst
  connections : List Connection
  vars : List (String × Value)
deriving DecidableEq

/-- The result object a node's execute function may return. An absent
`flow` is `none`; an absent `multiFlow` is `[]` and an absent `values` is
`[]` (in JS an empty array / object is truthy but the loops over it do
nothing, which is the same behaviour). -/
structure ExecResult where
  flow : Option String := none
  multiFlow : List String := []
  sequential : Bool := false
  values : List (String × Value) := []

/-- The per-tick execution context handed to node execute functions:
`context.deltaTime`, `context.object`, `context.collisionEvent?.other`,
and a read-only view of scene-object positions (`object.position`),
indexed by the opaque object reference. -/
structure Ctx where
  deltaTime : Value := .undefined
  object : Value := .undefined
  collisionOther : Option Value := none
  positions : Nat → Option (ℚ × ℚ × ℚ) := fun _ => none

/-- A registered node type: category, port lists, declared properties and
the execute function. Types registered without an execute function (the
source checks `!nodeType.execute`) carry `none`. -/
structure NodeType where
  category : String
  inputs : List String
  outputs : List String
  properties : List (String × PropDef) := []
  execute : Option (NodeInst → Ctx → NodeInst × Option ExecResult) := none

/-- The node-type registry `this.nodeTypes` (a JS Map). -/
def Registry : Type := List (String × NodeType)

/-- `registerNodeType(typeName, definition)`. -/
def registerNodeType (reg : Registry) (typeName : String) (definition : NodeType) :
    Registry := alistSet reg typeName definition

/-- `this.nodeTypes.get(typeName)`. -/
def lookupType (reg : Registry) (typeName : String) : Option NodeType :=
  alistGet reg typeName

/-! ### The built-in node catalog (registerDefaultNodes) -/

/-- OnStart: fires when the graph starts, returns `{ flow: 'Next' }`. -/
def onStartType : NodeType where
  category := "Events"
  inputs := []
  outputs := ["Next"]
  execute := some fun n _ => (n, some { flow := some "Next" })

/-- OnUpdate: writes `node.properties.deltaTime = context.deltaTime`
(a raw overwrite of the descriptor slot) and returns `{ flow: 'Next' }`. -/
def onUpdateType : NodeType where
  category := "Events"
  inputs := []
  outputs := ["Next"]
  properties := [("deltaTime", { ptype := "float", value := .num 0, output := true })]
  execute := some fun n ctx =>
    (setRawProp n "deltaTime" ctx.deltaTime, some { flow := some "Next" })

/-- OnCollision: when the context carries a collision event, stores the
other object and flows to Next; otherwise returns null. -/
def onCollisionType : NodeType where
  category := "Events"
  inputs := []
  outputs := ["Next"]
  properties := [("otherObject", { ptype := "object", value := .null, output := true })]
  execute := some fun n ctx =>
    match ctx.collisionOther with
    | some other => (setRawProp n "otherObject" other, some { flow := some "Next" })
    | none => (n, none)

/-- Branch: flows to True or False by the truthiness of the Condition
input. Note the source declares no `properties` for Branch. -/
def branchType : NodeType where
  category := "Logic"
  inputs := ["Exec", "Condition"]
  outputs := ["True", "False"]
  execute := some fun n _ =>
    (n, some { flow := some (if truthy (getInputValue n "Condition") then "True" else "False") })

/-- Sequence: a sequential multiFlow over three ordered output ports. -/
def sequenceType : NodeType where
  category := "Logic"
  inputs := ["Exec"]
  outputs := ["First", "Second", "Third"]
  execute := some fun n _ =>
    (n, some { multiFlow := ["First", "Second", "Third"], sequential := true })

/-- Add: reads `A || 0` and `B || 0`, overwrites `properties.Result` with
the raw sum, and publishes the sum on the Result output. -/
def addType : NodeType where
  category := "Math"
  inputs := ["A", "B"]
  outputs := ["Result"]
  properties :=
    [("A", { ptype := "float", value := .num 0, input := true }),
     ("B", { ptype := "float", value := .num 0, input := true }),
     ("Result", { ptype := "float", value := .num 0, output := true })]
  execute := some fun n _ =>
    let a := jsOr (getInputValue n "A") (.num 0)
    let b := jsOr (getInputValue n "B") (.num 0)
    (setRawProp n "Result" (jsAdd a b), some { values := [("Result", jsAdd a b)] })

/-- Multiply: as Add with multiplication. -/
def multiplyType : NodeType where
  category := "Math"
  inputs := ["A", "B"]
  outputs := ["Result"]
  properties :=
    [("A", { ptype := "float", value := .num 0, input := true }),
     ("B", { ptype := "float", value := .num 0, input := true }),
     ("Result", { ptype := "float", value := .num 0, output := true })]
  execute := some fun n _ =>
    let a := jsOr (getInputValue n "A") (.num 0)
    let b := jsOr (getInputValue n "B") (.num 0)
    (setRawProp n "Result" (jsMul a b), some { values := [("Result", jsMul a b)] })

/-- GetPosition: resolves `Object || context.object`; when that object
exists and has a position, overwrites X, Y, Z with raw coordinates and
publishes Position (a Vector3 clone) and the coordinates; otherwise
publishes null/0 values. -/
def getPositionType : NodeType where
  category := "Transform"
  inputs := ["Object"]
  outputs := ["Position", "X", "Y", "Z"]
  properties :=
    [("Object", { ptype := "object", value := .null, input := true }),
     ("X", { ptype := "float", value := .num 0, output := true }),
     ("Y", { ptype := "float", value := .num 0, output := true }),
     ("Z", { ptype := "float", value := .num 0, output := true })]
  execute := some fun n ctx =>
    let object := jsOr (getInputValue n "Object") ctx.object
    match object with
    | .obj o =>
      match ctx.positions o with
      | some (x, y, z) =>
        let n := setRawProp (setRawProp (setRawProp n "X" (.num x)) "Y" (.num y)) "Z" (.num z)
        (n, some { values :=
          [("Position", .vec3 x y z), ("X", .num x), ("Y", .num y), ("Z", .num z)] })
      | none =>
        (n, some { values := [("Position", .null), ("X", .num 0), ("Y", .num 0), ("Z", .num 0)] })
    | _ =>
      (n, some { values := [("Position", .null), ("X", .num 0), ("Y", .num 0), ("Z", .num 0)] })

/-- SetPosition: mutates the target scene object's position (an effect on
an external collaborator, invisible in the graph state modelled here) and
flows to Next. -/
def setPositionType : NodeType where
  category := "Transform"
  inputs := ["Exec", "Object", "Position", "X", "Y", "Z"]
  outputs := ["Next"]
  properties :=
    [("Object", { ptype := "object", value := .null, input := true }),
     ("X", { ptype := "float", value := .num 0, input := true }),
     ("Y", { ptype := "float", value := .num 0, input := true }),
     ("Z", { ptype := "float", value := .num 0, input := true })]
  execute := some fun n _ => (n, some { flow := some "Next" })

/-- ApplyForce: forwards a force to the target's RigidBody component when
present (again an external effect, a no-op on the graph state) and flows
to Next. -/
def applyForceType : NodeType where
  category := "Physics"
  inputs := ["Exec", "Object", "Force", "ForceX", "ForceY", "ForceZ"]
  outputs := ["Next"]
  properties :=
    [("Object", { ptype := "object", value := .null, input := true }),
     ("ForceX", { ptype := "float", value := .num 0, input := true }),
     ("ForceY", { ptype := "float", value := .num 0, input := true }),
     ("ForceZ", { ptype := "float", value := .num 0, input := true })]
  execute := some fun n _ => (n, some { flow := some "Next" })

/-- The registry after the constructor's registerDefaultNodes calls, in
source registration order. -/
def defaultRegistry : Registry :=
  registerNodeType (registerNodeType (registerNodeType (registerNodeType
    (registerNodeType (registerNodeType (registerNodeType (registerNodeType
      (registerNodeType (registerNodeType [] "OnStart" onStartType)
        "OnUpdate" onUpdateType)
      "OnCollision" onCollisionType)
    "Branch" branchType)
    "Sequence" sequenceType)
    "Add" addType)
    "Multiply" multiplyType)
    "GetPosition" getPositionType)
    "SetPosition" setPositionType)
    "ApplyForce" applyForceType

/-! ### Graph store and editing operations -/

/-- `this.graphs`, a Map from object uuid to behavior graph. -/
def Store : Type := List (String × Graph)

/-- The decimal digits of a natural number, least significant first,
computed with a structural fuel bound so the kernel can evaluate it. -/
def digitsLEAux : Nat → Nat → List Nat
  | 0, _ => []
  | fuel + 1, n => if n < 10 then [n] else n % 10 :: digitsLEAux fuel (n / 10)

/-- Little-endian decimal digits of a natural number. -/
def digitsLE (n : Nat) : List Nat := digitsLEAux (n + 1) n

/-- Recover a natural number from its little-endian decimal digits (used
to prove the digit rendering injective). -/
def parseLE (l : List Nat) : Nat := l.foldr (fun d acc => d + 10 * acc) 0

/-- A decimal digit as a character. -/
def digitChar (d : Nat) : Char := Char.ofNat (48 + d)

/-- JS number-to-string conversion for the natural numbers that feed the
generated ids (Date.now() and Math.floor(Math.random() * 1000)). -/
def natToString (n : Nat) : String := ⟨(digitsLE n).reverse.map digitChar⟩

/-- The generated node id `node_${Date.now()}_${Math.floor(Math.random()*1000)}`,
with the two nondeterministic inputs made explicit parameters. -/
def mkNodeId (time rand : Nat) : String :=
  "node_" ++ natToString time ++ "_" ++ natToString rand

/-- The generated connection id, same shape with prefix `conn_`. -/
def mkConnId (time rand : Nat) : String :=
  "conn_" ++ natToString time ++ "_" ++ natToString rand

/-- `createGraph(object)`: builds an empty graph keyed and owned by the
object's uuid and stores it. -/
def createGraph (store : Store) (uuid : String) : Store × Graph :=
  let graph : Graph :=
    { id := uuid, objectId := uuid, nodes := [], connections := [], vars := [] }
  (alistSet store uuid graph, graph)

/-- The property table a fresh node instance is seeded with:
`JSON.parse(JSON.stringify(definition.properties || {}))`. The JSON deep
copy drops undefined values (reading the missing key gives undefined
again, modelled as keeping `.undefined`) and turns NaN into null; functions do
not occur in declared properties. -/
def seedProps (props : List (String × PropDef)) : List (String × PropEntry) :=
  props.map fun (k, d) =>
    (k, .descr { d with value := match d.value with | .nan => .null | v => v })

/-- `addNode(graphId, nodeType, position)`: null when the graph or the
node type is unknown; otherwise appends a fresh node seeded from the
type's declared property defaults. -/
def addNode (reg : Registry) (store : Store) (graphId nodeType : String)
    (position : ℚ × ℚ) (time rand : Nat) : Store × Option NodeInst :=
  match alistGet store graphId with
  | none => (store, none)
  | some graph =>
    match lookupType reg nodeType with
    | none => (store, none)
    | some nodeDefinition =>
      let node : NodeInst :=
        { id := mkNodeId time rand, type := nodeType, position := position,
          properties := seedProps nodeDefinition.properties }
      (alistSet store graphId { graph with nodes := graph.nodes ++ [node] },
       some node)

/-- `connectNodes(graphId, sourceNodeId, sourceOutput, targetNodeId,
targetInput)`: null when the graph is unknown; otherwise appends the
connection. The source performs no validation of the endpoint node ids or
port names. -/
def connectNodes (store : Store) (graphId sourceNodeId sourceOutput
    targetNodeId targetInput : String) (time rand : Nat) :
    Store × Option Connection :=
  match alistGet store graphId with
  | none => (store, none)
  | some graph =>
    let connection : Connection :=
      { id := mkConnId time rand, sourceNodeId := sourceNodeId,
        sourceOutput := sourceOutput, targetNodeId := targetNodeId,
        targetInput := targetInput }
    (alistSet store graphId
      { graph with connections := graph.connections ++ [connection] },
     some connection)

/-- The direct property assignment `node.properties[key].value = v` used
to give a node a constant input (the module exposes no editing call for
it). Touches the first node with the given id; a slot that is absent or
holds a raw value is left alone (the source would throw there, and no
modelled scenario reaches that case). -/
def setPropValue (store : Store) (graphId nodeId key : String) (v : Value) :
    Store :=
  match alistGet store graphId with
  | none => store
  | some graph =>
    let setIn : List NodeInst → List NodeInst := fun ns =>
      match ns.findIdx? (fun n => n.id = nodeId) with
      | none => ns
      | some i =>
        match ns[i]? with
        | none => ns
        | some n =>
          let props := match alistGet n.properties key with
            | some (.descr d) => alistSet n.properties key (.descr { d with value := v })
            | _ => n.properties
          ns.set i { n with properties := props }
    alistSet store graphId { graph with nodes := setIn graph.nodes }

/-- Modelled from the spec: `remove_node(graph, node_id)` has no
implementation in the source module (only §4.2 of the specification
defines it); it removes the node instance and cascades to every
connection whose source or target is that node. -/
def removeNode (g : Graph) (nodeId : String) : Graph :=
  { g with
    nodes := g.nodes.filter (fun n => n.id ≠ nodeId),
    connections := g.connections.filter
      (fun c => c.sourceNodeId ≠ nodeId ∧ c.targetNodeId ≠ nodeId) }

/-! ### Executor

`executeNode` is indexed by a fuel bound because the source recursion has
no cycle guard; `none` means the bound was exhausted. Alongside the
updated graph it returns the trace of ids of nodes whose execute function
was invoked, in invocation order, which is the observable the traversal
claims are stated over. Node objects mutated in place in JS are addressed
here by their index in `graph.nodes`. -/

/-- The index of the first list element satisfying a predicate, counting
from the given start index. -/
def findIdxFrom (p : NodeInst → Bool) : Nat → List NodeInst → Option Nat
  | _, [] => none
  | i, n :: ns => if p n then some i else findIdxFrom p (i + 1) ns

/-- The index of `graph.nodes.find(n => n.id === nid)`. -/
def findNodeIdx (g : Graph) (nid : String) : Option Nat :=
  findIdxFrom (fun n => n.id = nid) 0 g.nodes

/-- Write the mutated node object back at its index. -/
def setNodeAt (g : Graph) (i : Nat) (n : NodeInst) : Graph :=
  { g with nodes := g.nodes.set i n }

/-- `graph.connections.filter(c => c.sourceNodeId === nid && c.sourceOutput === port)`. -/
def connsFrom (g : Graph) (nid port : String) : List Connection :=
  g.connections.filter (fun c => c.sourceNodeId = nid ∧ c.sourceOutput = port)

/-- The flow loop: for each connection whose target node exists, execute
the target, threading the graph. -/
def runFlow (exec : Graph → Nat → Option (Graph × List String)) :
    Graph → List Connection → Option (Graph × List String)
  | g, [] => some (g, [])
  | g, c :: cs =>
    match findNodeIdx g c.targetNodeId with
    | none => runFlow exec g cs
    | some j => do
      let (g', tr) ← exec g j
      let (g'', tr') ← runFlow exec g' cs
      pure (g'', tr ++ tr')

/-- The inner multiFlow loop over one port's connections. The Bool in the
result records the early `return` the source takes after the first
executed target when the result is sequential. -/
def runMultiConns (exec : Graph → Nat → Option (Graph × List String))
    (seqFlag : Bool) : Graph → List Connection → Option (Graph × List String × Bool)
  | g, [] => some (g, [], false)
  | g, c :: cs =>
    match findNodeIdx g c.targetNodeId with
    | none => runMultiConns exec seqFlag g cs
    | some j => do
      let (g', tr) ← exec g j
      if seqFlag then pure (g', tr, true)
      else do
        let (g'', tr', e) ← runMultiConns exec seqFlag g' cs
        pure (g'', tr ++ tr', e)

/-- The outer multiFlow loop over the result's ports in declared order. -/
def runMultiPorts (exec : Graph → Nat → Option (Graph × List String))
    (seqFlag : Bool) (nid : String) :
    Graph → List String → Option (Graph × List String × Bool)
  | g, [] => some (g, [], false)
  | g, p :: ps => do
    let (g', tr, e) ← runMultiConns exec seqFlag g (connsFrom g nid p)
    if e then pure (g', tr, true)
    else do
      let (g'', tr', e') ← runMultiPorts exec seqFlag nid g' ps
      pure (g'', tr ++ tr', e')

/-- One values write: find the first node with the connection's target id
and, when its property table has a slot for the target input, store the
value into that slot's `.value`. A slot clobbered to a raw falsy value
fails the source's truthiness guard and is skipped; a raw truthy slot
would make the source throw a TypeError (strict-mode write to a
primitive's property) and is modelled as leaving the slot unchanged — no
claim scenario reaches it. -/
def writeValue (g : Graph) (c : Connection) (v : Value) : Graph :=
  match findNodeIdx g c.targetNodeId with
  | none => g
  | some j =>
    match g.nodes[j]? with
    | none => g
    | some n =>
      match alistGet n.properties c.targetInput with
      | some (.descr d) =>
        setNodeAt g j
          { n with properties := alistSet n.properties c.targetInput (.descr { d with value := v }) }
      | _ => g

/-- The values-propagation loop: each published (port, value) pair is
written through every connection sourced at that port. -/
def propagateValues (nid : String) : Graph → List (String × Value) → Graph
  | g, [] => g
  | g, (port, v) :: rest =>
    propagateValues nid ((connsFrom g nid port).foldl (fun g' c => writeValue g' c v) g) rest

/-- `executeNode(graph, node, context)`: execute the node's function, then
follow flow, multiFlow (with the sequential early return) and values
propagation, recursing into target nodes. -/
def executeNode (reg : Registry) : Nat → Graph → Nat → Ctx →
    Option (Graph × List String)
  | 0, _, _, _ => none
  | fuel + 1, g, idx, ctx =>
    match g.nodes[idx]? with
    | none => some (g, [])
    | some node =>
      match lookupType reg node.type with
      | none => some (g, [])
      | some nodeType =>
        match nodeType.execute with
        | none => some (g, [])
        | some ex =>
          let (node', result?) := ex node ctx
          let g1 := setNodeAt g idx node'
          match result? with
          | none => some (g1, [node.id])
          | some result =>
            let exec := fun g' j => executeNode reg fuel g' j ctx
            do
            let (g2, trF) ←
              match result.flow with
              | some p => if p = "" then some (g1, []) else
                  runFlow exec g1 (connsFrom g1 node'.id p)
              | none => some (g1, [])
            let (g3, trM, early) ←
              match result.multiFlow with
              | [] => some (g2, ([] : List String), false)
              | ports => runMultiPorts exec result.sequential node'.id g2 ports
            if early then pure (g3, node.id :: (trF ++ trM))
            else
              let g4 := propagateValues node'.id g3 result.values
              pure (g4, node.id :: (trF ++ trM))

/-- The event-node filter of executeGraph, as the indices of the nodes
whose type's category is Events. -/
def eventIndices (reg : Registry) (g : Graph) : List Nat :=
  (List.range g.nodes.length).filter fun i =>
    match g.nodes[i]? with
    | some n =>
      match lookupType reg n.type with
      | some nt => nt.category = "Events"
      | none => False
    | none => False

/-- Execute a list of root nodes in order, threading the graph. -/
def execRoots (reg : Registry) (fuel : Nat) (ctx : Ctx) :
    Graph → List Nat → Option (Graph × List String)
  | g, [] => some (g, [])
  | g, i :: is => do
    let (g', tr) ← executeNode reg fuel g i ctx
    let (g'', tr') ← execRoots reg fuel ctx g' is
    pure (g'', tr ++ tr')

/-- `executeGraph(graphId, context)`: a no-op when the graph is unknown or
the system is not playing; otherwise every event node is executed as a
root, and the mutated graph replaces the stored one. -/
def executeGraph (reg : Registry) (fuel : Nat) (store : Store)
    (isPlaying : Bool) (graphId : String) (ctx : Ctx) :
    Option (Store × List String) :=
  match alistGet store graphId with
  | none => some (store, [])
  | some g =>
    if isPlaying then do
      let (g', tr) ← execRoots reg fuel ctx g (eventIndices reg g)
      pure (alistSet store graphId g', tr)
    else some (store, [])

/-- Termination of a single executeNode traversal: some fuel bound
suffices. -/
def Terminates (reg : Registry) (g : Graph) (idx : Nat) (ctx : Ctx) : Prop :=
  ∃ fuel, executeNode reg fuel g idx ctx ≠ none

/-- Termination of a whole executeGraph tick. -/
def TerminatesGraph (reg : Registry) (store : Store) (graphId : String)
    (ctx : Ctx) : Prop :=
  ∃ fuel, executeGraph reg fuel store true graphId ctx ≠ none

/-! ### Serializer

The portable form is modelled structurally (the JSON text encode/decode
around it is the identity on this structure). What JSON.stringify does to
individual values is modelled by `jsonOfValue`: an undefined value makes
the key disappear, NaN becomes null. An object or vector value would be
serialized as a structural copy; with references opaque the copy is
modelled as the value itself (no built-in declared default is an object
other than null, so the editing-API round-trip claims never meet one). -/

/-- The JSON image of a property value; none when the key is dropped. -/
def jsonOfValue : Value → Option Value
  | .undefined => none
  | .nan => some .null
  | v => some v

/-- A serialized node: id, type, position, and property values only. -/
structure PNode where
  id : String
  type : String
  position : ℚ × ℚ
  properties : List (String × Value)
deriving DecidableEq

/-- The portable graph document. -/
structure PortableGraph where
  id : String
  objectId : String
  nodes : List PNode
  connections : List Connection
  vars : List (String × Value)
deriving DecidableEq

/-- The serialized image of one node: each property slot contributes its
`.value` (undefined for a raw-clobbered slot, hence dropped by JSON). -/
def pnodeOf (n : NodeInst) : PNode :=
  { id := n.id, type := n.type, position := n.position,
    properties := n.properties.filterMap fun (k, e) =>
      match e with
      | .descr d => (jsonOfValue d.value).map fun v => (k, v)
      | .raw _ => none }

/-- The body of `serializeGraph` on a graph that exists. -/
def portableOfGraph (g : Graph) : PortableGraph :=
  { id := g.id, objectId := g.objectId, nodes := g.nodes.map pnodeOf,
    connections := g.connections, vars := g.vars }

/-- `serializeGraph(graphId)`: null for an unknown graph. -/
def serializeGraph (store : Store) (graphId : String) : Option PortableGraph :=
  (alistGet store graphId).map portableOfGraph

/-- `new Map(entries)`: fold Map.set over the entry list. -/
def mapFromList (l : List (String × Value)) : List (String × Value) :=
  l.foldl (fun m (kv : String × Value) => alistSet m kv.1 kv.2) []

/-- Rebuild one node from its serialized form: start from the registered
type's current declared defaults and overwrite each with the serialized
value when present; a node whose type is unknown (or declares no
properties) gets an empty property table. -/
def nodeOfPNode (reg : Registry) (nd : PNode) : NodeInst :=
  { id := nd.id, type := nd.type, position := nd.position,
    properties :=
      match lookupType reg nd.type with
      | some nt =>
        nt.properties.map fun (k, d) =>
          (k, .descr { d with value := (alistGet nd.properties k).getD d.value })
      | none => [] }

/-- The graph built by `deserializeGraph`. -/
def graphOfPortable (reg : Registry) (p : PortableGraph) : Graph :=
  { id := p.id, objectId := p.objectId,
    nodes := p.nodes.map (nodeOfPNode reg),
    connections := p.connections,
    vars := mapFromList p.vars }

/-- `deserializeGraph(json)`: rebuild the graph and store it under its id. -/
def deserializeGraph (reg : Registry) (store : Store) (p : PortableGraph) :
    Store × Graph :=
  let graph := graphOfPortable reg p
  (alistSet store graph.id graph, graph)

/-! ### Derived notions the claims are stated over -/

/-- The first node with a given id in a stored graph. -/
def graphNode (store : Store) (graphId nodeId : String) : Option NodeInst :=
  match alistGet store graphId with
  | none => none
  | some g => g.nodes.find? (fun n => n.id = nodeId)

/-- The node ids of a graph, in order. -/
def nodeIds (g : Graph) : List String := g.nodes.map (·.id)

/-- The index of the target of the first connection in the list whose
target node exists — the node a sequential multiFlow dispatches to. -/
def firstLiveIdx (g : Graph) : List Connection → Option Nat
  | [] => none
  | c :: cs =>
    match findNodeIdx g c.targetNodeId with
    | some j => some j
    | none => firstLiveIdx g cs

/-- A node instance exactly as addNode creates it: its type registered and
its property table the seeded copy of the type's declared defaults. -/
def BuiltNode (reg : Registry) (n : NodeInst) : Prop :=
  ∃ nt, lookupType reg n.type = some nt ∧ n.properties = seedProps nt.properties

/-- A graph as the editing API alone can produce it: every node freshly
seeded and the variables table empty (no editing call touches it). -/
def BuiltGraph (reg : Registry) (g : Graph) : Prop :=
  (∀ n ∈ g.nodes, BuiltNode reg n) ∧ g.vars = []

/-- Every graph in the store was built by the editing API. -/
def StoreBuilt (reg : Registry) (store : Store) : Prop :=
  ∀ k g, alistGet store k = some g → BuiltGraph reg g

/-- Registry sanity holding of the built-in catalog and any JS-definable
registry: declared property keys are distinct (JS object literals cannot
repeat a key) and declared default values survive a JSON round trip
(no undefined or NaN defaults). -/
def RegOk (reg : Registry) : Prop :=
  ∀ k nt, lookupType reg k = some nt →
    (nt.properties.map Prod.fst).Nodup ∧
    ∀ p ∈ nt.properties, jsonOfValue p.2.value = some p.2.value

/-- Decidable form of `RegOk` over the registry's entry list. -/
def regOkB (reg : Registry) : Bool :=
  reg.all fun p =>
    (p.2.properties.map Prod.fst).Nodup &&
    p.2.properties.all fun q => jsonOfValue q.2.value == some q.2.value

/-- One editing-API call. -/
inductive EditStep where
  | create (uuid : String)
  | add (graphId type : String) (position : ℚ × ℚ) (time rand : Nat)
  | connect (graphId sourceNodeId sourceOutput targetNodeId targetInput : String)
      (time rand : Nat)

/-- Apply one editing call to the store. -/
def applyEdit (reg : Registry) (store : Store) : EditStep → Store
  | .create uuid => (createGraph store uuid).1
  | .add graphId ty pos time rand => (addNode reg store graphId ty pos time rand).1
  | .connect graphId s so t ti time rand =>
    (connectNodes store graphId s so t ti time rand).1

/-- Apply a sequence of editing calls. -/
def applyEdits (reg : Registry) : Store → List EditStep → Store
  | store, [] => store
  | store, e :: es => applyEdits reg (applyEdit reg store e) es

/-- A rank function witnessing that the connection topology is acyclic:
every connection strictly decreases it from source to target. -/
def RankOk (rank : String → Nat) (g : Graph) : Prop :=
  ∀ c ∈ g.connections, rank c.targetNodeId < rank c.sourceNodeId

/-- Every registered execute function leaves the node id alone — true of
the whole built-in catalog, which only writes property slots. -/
def ExecIdOk (reg : Registry) : Prop :=
  ∀ k nt, lookupType reg k = some nt → ∀ f, nt.execute = some f →
    ∀ n ctx, (f n ctx).1.id = n.id

/-! ### Concrete scenario inputs for the claims -/

/-- The numeric sink node type the end-to-end scenario of the spec
registers: one numeric input property, no behaviour of its own. -/
def sinkType : NodeType where
  category := "Debug"
  inputs := ["input"]
  outputs := []
  properties := [("input", { ptype := "float", value := .num 0, input := true })]

/-- A probe node type used to observe which branch of a dispatch ran: it
has an execute function (so it appears in the trace) that does nothing. -/
def probeType : NodeType where
  category := "Debug"
  inputs := ["Exec"]
  outputs := []
  execute := some fun n _ => (n, none)

/-- Registry for the C1 scenario: the built-in catalog plus the sink. -/
def c1Registry : Registry := registerNodeType defaultRegistry "Sink" sinkType

/-- The C1 store: a graph with OnUpdate, Add (B set to 10) and a sink,
wired OnUpdate.deltaTime -> Add.A and Add.Result -> sink.input. -/
def c1Store : Store :=
  let s := (createGraph [] "obj1").1
  let s := (addNode c1Registry s "obj1" "OnUpdate" (0, 0) 1 0).1
  let s := (addNode c1Registry s "obj1" "Add" (0, 0) 2 0).1
  let s := (addNode c1Registry s "obj1" "Sink" (0, 0) 3 0).1
  let s := setPropValue s "obj1" "node_2_0" "B" (.num 10)
  let s := (connectNodes s "obj1" "node_1_0" "deltaTime" "node_2_0" "A" 4 0).1
  (connectNodes s "obj1" "node_2_0" "Result" "node_3_0" "input" 5 0).1

/-- Ticking the C1 graph with delta-time 0.5 while playing. -/
def c1Result : Option (Store × List String) :=
  executeGraph c1Registry 20 c1Store true "obj1" { deltaTime := .num (1 / 2) }

/-- The sink's input property value after the C1 tick. -/
def c1SinkInput : Option Value :=
  match c1Result with
  | some (store, _) =>
    match graphNode store "obj1" "node_3_0" with
    | some n => some (getInputValue n "input")
    | none => none
  | none => none

/-- Registry for the C4/C5 scenarios: the built-in catalog plus probes. -/
def probeRegistry : Registry := registerNodeType defaultRegistry "Probe" probeType

/-- The C5 store: OnStart flows to an Add (B set to 7) and to a Branch;
Add.Result is wired into Branch.Condition; Branch.True and Branch.False
each feed a probe. -/
def c5Store : Store :=
  let s := (createGraph [] "obj5").1
  let s := (addNode probeRegistry s "obj5" "OnStart" (0, 0) 1 0).1
  let s := (addNode probeRegistry s "obj5" "Add" (0, 0) 2 0).1
  let s := (addNode probeRegistry s "obj5" "Branch" (0, 0) 3 0).1
  let s := (addNode probeRegistry s "obj5" "Probe" (0, 0) 4 0).1
  let s := (addNode probeRegistry s "obj5" "Probe" (0, 0) 5 0).1
  let s := setPropValue s "obj5" "node_2_0" "B" (.num 7)
  let s := (connectNodes s "obj5" "node_1_0" "Next" "node_2_0" "A" 10 0).1
  let s := (connectNodes s "obj5" "node_1_0" "Next" "node_3_0" "Exec" 11 0).1
  let s := (connectNodes s "obj5" "node_2_0" "Result" "node_3_0" "Condition" 12 0).1
  let s := (connectNodes s "obj5" "node_3_0" "True" "node_4_0" "Exec" 13 0).1
  (connectNodes s "obj5" "node_3_0" "False" "node_5_0" "Exec" 14 0).1

/-- The trace of ticking the C5 graph. -/
def c5Trace : Option (List String) :=
  (executeGraph probeRegistry 20 c5Store true "obj5" {}).map (·.2)

/-- The Sequence node of the C4 witness graph. -/
def c4SeqNode : NodeInst :=
  { id := "seq", type := "Sequence", position := (0, 0), properties := [] }

/-- A concrete graph for the C4 witness: a Sequence node whose First,
Second and Third ports feed probes a, b, c respectively. -/
def c4Graph : Graph :=
  { id := "g4", objectId := "g4",
    nodes :=
      [c4SeqNode,
       { id := "a", type := "Probe", position := (0, 0), properties := [] },
       { id := "b", type := "Probe", position := (0, 0), properties := [] },
       { id := "c", type := "Probe", position := (0, 0), properties := [] }],
    connections :=
      [{ id := "w1", sourceNodeId := "seq", sourceOutput := "First",
         targetNodeId := "a", targetInput := "Exec" },
       { id := "w2", sourceNodeId := "seq", sourceOutput := "Second",
         targetNodeId := "b", targetInput := "Exec" },
       { id := "w3", sourceNodeId := "seq", sourceOutput := "Third",
         targetNodeId := "c", targetInput := "Exec" }],
    vars := [] }

/-- The C2 counterexample store: one freshly created graph with no nodes
at all, so any endpoint id is absent from it. -/
def c2Store : Store := (createGraph [] "g1").1

/-- The connection the C2 counterexample call builds. -/
def c2Conn : Connection :=
  { id := "conn_9_9", sourceNodeId := "ghost1", sourceOutput := "out",
    targetNodeId := "ghost2", targetInput := "in" }

/-- The C7 counterexample store: two addNode calls whose id-generation
inputs (same millisecond, same random draw) coincide. -/
def c7Store : Store :=
  let s := (createGraph [] "obj7").1
  let s := (addNode defaultRegistry s "obj7" "Add" (0, 0) 5 5).1
  (addNode defaultRegistry s "obj7" "Add" (0, 0) 5 5).1

/-- One addNode call of a C7 call sequence. -/
structure AddCall where
  type : String
  position : ℚ × ℚ
  time : Nat
  rand : Nat

/-- Apply a sequence of addNode calls to one graph. -/
def applyAddCalls (reg : Registry) (graphId : String) :
    Store → List AddCall → Store
  | store, [] => store
  | store, c :: cs =>
    applyAddCalls reg graphId
      (addNode reg store graphId c.type c.position c.time c.rand).1 cs

/-- The C7 amended-claim witness store: one fresh graph. -/
def c7wStore : Store := (createGraph [] "w7").1

/-- Two addNode calls with distinct id-generation inputs. -/
def c7Calls : List AddCall :=
  [{ type := "Add", position := (0, 0), time := 1, rand := 1 },
   { type := "Add", position := (0, 0), time := 1, rand := 2 }]

/-- The graph those two calls build. -/
def c7wGraph : Graph :=
  { id := "w7", objectId := "w7",
    nodes :=
      [{ id := "node_1_1", type := "Add", position := (0, 0),
         properties := seedProps addType.properties },
       { id := "node_1_2", type := "Add", position := (0, 0),
         properties := seedProps addType.properties }],
    connections := [], vars := [] }

/-- The C8 counterexample: two OnStart nodes whose Next ports feed each
other, a connection cycle. -/
def cycleGraph : Graph :=
  { id := "c8", objectId := "c8",
    nodes :=
      [{ id := "a", type := "OnStart", position := (0, 0), properties := [] },
       { id := "b", type := "OnStart", position := (0, 0), properties := [] }],
    connections :=
      [{ id := "k1", sourceNodeId := "a", sourceOutput := "Next",
         targetNodeId := "b", targetInput := "Exec" },
       { id := "k2", sourceNodeId := "b", sourceOutput := "Next",
         targetNodeId := "a", targetInput := "Exec" }],
    vars := [] }

/-- An acyclic graph for the C8 amended witness: OnStart flows into a
probe. -/
def chainGraph : Graph :=
  { id := "c8w", objectId := "c8w",
    nodes :=
      [{ id := "root", type := "OnStart", position := (0, 0), properties := [] },
       { id := "leaf", type := "Probe", position := (0, 0), properties := [] }],
    connections :=
      [{ id := "k1", sourceNodeId := "root", sourceOutput := "Next",
         targetNodeId := "leaf", targetInput := "Exec" }],
    vars := [] }

/-- The editing-call sequence of the C3 witness: create a graph, add an
Add node and an OnUpdate node, connect Add.Result to OnUpdate.A. -/
def c3Steps : List EditStep :=
  [.create "o",
   .add "o" "Add" (0, 0) 1 2,
   .add "o" "OnUpdate" (0, 0) 3 4,
   .connect "o" "node_1_2" "Result" "node_3_4" "A" 5 6]

/-- The graph those calls build. -/
def c3Graph : Graph :=
  { id := "o", objectId := "o",
    nodes :=
      [{ id := "node_1_2", type := "Add", position := (0, 0),
         properties := seedProps addType.properties },
       { id := "node_3_4", type := "OnUpdate", position := (0, 0),
         properties := seedProps onUpdateType.properties }],
    connections :=
      [{ id := "conn_5_6", sourceNodeId := "node_1_2", sourceOutput := "Result",
         targetNodeId := "node_3_4", targetInput := "A" }],
    vars := [] }

/-- A rank for the chain graph, strictly decreasing along its one
connection. -/
def chainRank : String → Nat := fun s => if s = "root" then 1 else 0

/-! ## Theorems -/

/-! ### Association-list and list helper lemmas -/

theorem alistGet_set {α : Type} (m : List (String × α)) (k : String) (v : α)
    (k' : String) :
    alistGet (alistSet m k v) k' = if k = k' then some v else alistGet m k' := by
  induction m with
  | nil => simp only [alistSet, alistGet]
  | cons p rest ih =>
    obtain ⟨pk, pv⟩ := p
    simp only [alistSet]
    by_cases hpk : pk = k
    · subst hpk
      by_cases h : pk = k' <;> simp [alistGet, h]
    · simp only [if_neg hpk, alistGet]
      by_cases hpk' : pk = k'
      · subst hpk'
        have hk : ¬ k = pk := fun hh => hpk hh.symm
        simp [alistGet, hk]
      · simp [hpk', ih]

theorem alistGet_mem {α : Type} {m : List (String × α)} {k : String} {v : α}
    (h : alistGet m k = some v) : (k, v) ∈ m := by
  induction m with
  | nil => simp [alistGet] at h
  | cons p rest ih =>
    obtain ⟨pk, pv⟩ := p
    by_cases hpk : pk = k
    · subst hpk
      simp [alistGet] at h
      simp [h]
    · simp [alistGet, hpk] at h
      exact List.mem_cons_of_mem _ (ih h)

theorem list_set_self {α : Type} :
    ∀ (l : List α) (i : Nat) (a : α), l[i]? = some a → l.set i a = l := by
  intro l
  induction l with
  | nil => intro i a h; simp at h
  | cons x xs ih =>
    intro i a h
    cases i with
    | zero => simp at h; simp [h]
    | succ j => simp at h; simp [List.set, ih j a h]

theorem setNodeAt_self {g : Graph} {idx : Nat} {n : NodeInst}
    (h : g.nodes[idx]? = some n) : setNodeAt g idx n = g := by
  simp [setNodeAt, list_set_self _ _ _ h]

/-! ### C9 — remove_node cascades (modelled from the spec) -/

/-- C9: after remove_node, the node's instance is gone and zero
connections reference it as source or target. -/
theorem removeNode_cascades (g : Graph) (nodeId : String) :
    ((removeNode g nodeId).connections.all
      (fun c => !(c.sourceNodeId == nodeId) && !(c.targetNodeId == nodeId))) = true ∧
    ((removeNode g nodeId).nodes.all (fun n => !(n.id == nodeId))) = true := by
  constructor
  · simp only [removeNode, List.all_eq_true, List.mem_filter]
    intro c hc
    have := hc.2
    simp at this ⊢
    exact this
  · simp only [removeNode, List.all_eq_true, List.mem_filter]
    intro n hn
    have := hn.2
    simp at this ⊢
    exact this

/-! ### C6 — addNode with an unregistered type -/

/-- C6: addNode with an unregistered type name returns null and leaves
the store — in particular the graph's node collection — unchanged. -/
theorem addNode_unknown_type (reg : Registry) (store : Store)
    (graphId ty : String) (pos : ℚ × ℚ) (time rand : Nat)
    (h : lookupType reg ty = none) :
    addNode reg store graphId ty pos time rand = (store, none) := by
  cases hg : alistGet store graphId with
  | none => simp [addNode, hg]
  | some g => simp [addNode, hg, h]

theorem addNode_unknown_type_witness :
    lookupType defaultRegistry "Bogus" = none ∧
    addNode defaultRegistry c2Store "g1" "Bogus" (0, 0) 1 1 = (c2Store, none) :=
  ⟨rfl, addNode_unknown_type defaultRegistry c2Store "g1" "Bogus" (0, 0) 1 1 rfl⟩

/-! ### C10 — operations on an unknown graph id -/

/-- C10: with a graph id absent from the store, addNode and connectNodes
return null with the store unchanged, serializeGraph returns null, and
executeGraph does nothing. -/
theorem unknown_graph_ops (reg : Registry) (store : Store) (graphId : String)
    (ty sourceNodeId sourceOutput targetNodeId targetInput : String)
    (pos : ℚ × ℚ) (t1 r1 t2 r2 fuel : Nat) (isPlaying : Bool) (ctx : Ctx)
    (h : alistGet store graphId = none) :
    addNode reg store graphId ty pos t1 r1 = (store, none) ∧
    connectNodes store graphId sourceNodeId sourceOutput targetNodeId
      targetInput t2 r2 = (store, none) ∧
    serializeGraph store graphId = none ∧
    executeGraph reg fuel store isPlaying graphId ctx = some (store, []) := by
  refine ⟨?_, ?_, ?_, ?_⟩
  · simp [addNode, h]
  · simp [connectNodes, h]
  · simp [serializeGraph, h]
  · simp [executeGraph, h]

theorem unknown_graph_ops_witness :
    alistGet ([] : Store) "ghost" = none ∧
    (addNode defaultRegistry [] "ghost" "Add" (0, 0) 1 1 = (([] : Store), none) ∧
     connectNodes [] "ghost" "a" "Next" "b" "Exec" 2 2 = (([] : Store), none) ∧
     serializeGraph [] "ghost" = none ∧
     executeGraph defaultRegistry 9 [] true "ghost" {} = some (([] : Store), [])) :=
  ⟨rfl, unknown_graph_ops defaultRegistry [] "ghost" "Add" "a" "Next" "b" "Exec"
    (0, 0) 1 1 2 2 9 true {} rfl⟩

/-! ### C2 — connect-time validation -/

/-- C2 counterexample: connecting two node ids that are absent from the
graph (its node list is empty), over undeclared ports, succeeds and
appends the connection instead of failing. -/
theorem connect_no_validation_counterexample :
    (connectNodes c2Store "g1" "ghost1" "out" "ghost2" "in" 9 9).2 = some c2Conn ∧
    (alistGet (connectNodes c2Store "g1" "ghost1" "out" "ghost2" "in" 9 9).1
      "g1").map (fun g => g.connections) = some [c2Conn] ∧
    (alistGet c2Store "g1").map (fun g => g.nodes) = some [] := by
  decide

/-- C2 amended: connectNodes validates nothing; whenever the graph id is
present it appends the connection verbatim and succeeds, whatever the
endpoint ids and port names are. -/
theorem connect_appends_unconditionally (store : Store) (graphId : String)
    (sourceNodeId sourceOutput targetNodeId targetInput : String)
    (time rand : Nat) (g : Graph) (h : alistGet store graphId = some g) :
    connectNodes store graphId sourceNodeId sourceOutput targetNodeId
      targetInput time rand =
      (alistSet store graphId
        { g with connections := g.connections ++
            [{ id := mkConnId time rand, sourceNodeId := sourceNodeId,
               sourceOutput := sourceOutput, targetNodeId := targetNodeId,
               targetInput := targetInput }] },
       some { id := mkConnId time rand, sourceNodeId := sourceNodeId,
              sourceOutput := sourceOutput, targetNodeId := targetNodeId,
              targetInput := targetInput }) := by
  simp [connectNodes, h]

theorem connect_appends_unconditionally_witness :
    alistGet c2Store "g1" = some (createGraph [] "g1").2 ∧
    connectNodes c2Store "g1" "ghost1" "out" "ghost2" "in" 9 9 =
      (alistSet c2Store "g1"
        { (createGraph [] "g1").2 with connections := [c2Conn] }, some c2Conn) :=
  ⟨by decide, connect_appends_unconditionally c2Store "g1" "ghost1" "out"
    "ghost2" "in" 9 9 (createGraph [] "g1").2 (by decide)⟩

/-! ### C7 — node id uniqueness (counterexample half) -/

/-- C7 counterexample: two addNode calls whose id-generation inputs
coincide produce the same node id twice in one graph, so ids are not
pairwise distinct for all outcomes of the id-generation inputs. -/
theorem duplicate_node_ids_counterexample :
    (alistGet c7Store "obj7").map nodeIds = some ["node_5_5", "node_5_5"] ∧
    ¬ (["node_5_5", "node_5_5"] : List String).Nodup := by
  decide

/-! ### C1 — the OnUpdate → Add → sink end-to-end scenario -/

/-- C1: ticking the OnUpdate.deltaTime → Add.A, Add.B = 10,
Add.Result → sink.input graph with delta-time 0.5 leaves the sink's input
at 0, not 10.5: OnUpdate returns only a Next flow and never publishes
deltaTime as values (it also overwrites the deltaTime descriptor with a
raw number), so the Add node never executes — the trace of the tick is
the OnUpdate node alone. -/
theorem onUpdate_add_sink_scenario :
    c1SinkInput = some (Value.num 0) ∧
    c1Result.map (·.2) = some ["node_1_0"] ∧
    Value.num 0 ≠ Value.num (21 / 2) := by
  refine ⟨by decide, by decide, ?_⟩
  intro h
  injection h with h'
  norm_num at h'

/-! ### C4 — sequential-first-wins for Sequence -/

theorem runMultiConns_seq_firstLive
    (exec : Graph → Nat → Option (Graph × List String)) (g : Graph)
    (conns : List Connection) (j : Nat)
    (h : firstLiveIdx g conns = some j) :
    runMultiConns exec true g conns =
      (exec g j).map (fun r => (r.1, r.2, true)) := by
  induction conns with
  | nil => simp [firstLiveIdx] at h
  | cons c cs ih =>
    cases hf : findNodeIdx g c.targetNodeId with
    | none =>
      simp only [firstLiveIdx, hf] at h
      simp only [runMultiConns, hf]
      exact ih h
    | some j' =>
      simp only [firstLiveIdx, hf, Option.some.injEq] at h
      subst h
      simp only [runMultiConns, hf]
      cases hx : exec g j' with
      | none => simp [hx]
      | some r => simp [hx]

/-- C4: executing a node of the Sequence type (whose result is a
sequential multiFlow over First, Second, Third) dispatches exactly the
target of the first live First connection and then returns: the whole
execution equals that one target's execution with the Sequence node
prepended to the trace, so no node is dispatched through Second or
Third. -/
theorem sequence_first_wins (reg : Registry) (fuel idx : Nat) (g : Graph)
    (n : NodeInst) (ctx : Ctx) (j : Nat)
    (hn : g.nodes[idx]? = some n)
    (ht : lookupType reg n.type = some sequenceType)
    (hj : firstLiveIdx g (connsFrom g n.id "First") = some j) :
    executeNode reg (fuel + 1) g idx ctx =
      (executeNode reg fuel g j ctx).map (fun r => (r.1, n.id :: r.2)) := by
  have hset : setNodeAt g idx n = g := setNodeAt_self hn
  simp only [executeNode, hn, ht, sequenceType, hset]
  simp only [runMultiPorts, Option.bind_eq_bind, Option.some_bind]
  rw [runMultiConns_seq_firstLive _ _ _ _ hj]
  cases hx : executeNode reg fuel g j ctx with
  | none => simp [hx]
  | some r => simp [hx]

theorem sequence_first_wins_witness :
    c4Graph.nodes[0]? = some c4SeqNode ∧
    lookupType probeRegistry "Sequence" = some sequenceType ∧
    firstLiveIdx c4Graph (connsFrom c4Graph "seq" "First") = some 1 ∧
    executeNode probeRegistry 6 c4Graph 0 {} =
      (executeNode probeRegistry 5 c4Graph 1 {}).map (fun r => (r.1, "seq" :: r.2)) ∧
    executeNode probeRegistry 6 c4Graph 0 {} = some (c4Graph, ["seq", "a"]) ∧
    "b" ∉ (["seq", "a"] : List String) ∧ "c" ∉ (["seq", "a"] : List String) :=
  ⟨rfl, rfl, rfl,
   sequence_first_wins probeRegistry 5 0 c4Graph c4SeqNode {} 1 rfl rfl rfl,
   by decide, by decide, by decide⟩

/-! ### C5 — Branch condition delivery -/

/-- C5: a truthy Condition (the value 7) published by an upstream Add
into Branch.Condition in the same tick does not select the True branch:
Branch declares no Condition property, the values write is skipped by the
propagation guard, the condition reads as undefined, and the False-side
probe (node_5_0) executes while the True-side probe (node_4_0) does not. -/
theorem branch_condition_not_delivered :
    truthy (Value.num 7) = true ∧
    c5Trace = some ["node_1_0", "node_2_0", "node_3_0", "node_5_0"] ∧
    "node_4_0" ∉ (["node_1_0", "node_2_0", "node_3_0", "node_5_0"] : List String) := by
  decide

/-! ### C3 — serialize/deserialize round trip -/

theorem regOk_of_regOkB {reg : Registry} (h : regOkB reg = true) : RegOk reg := by
  intro k nt hlk
  have hmem := alistGet_mem hlk
  rw [regOkB, List.all_eq_true] at h
  have h2 := h _ hmem
  simp only [Bool.and_eq_true, decide_eq_true_eq] at h2
  refine ⟨h2.1, ?_⟩
  intro p hp
  have h3 := List.all_eq_true.mp h2.2 p hp
  simpa using h3

theorem seedProps_eq_of_safe {props : List (String × PropDef)}
    (h : ∀ p ∈ props, jsonOfValue p.2.value = some p.2.value) :
    seedProps props = props.map (fun p => (p.1, PropEntry.descr p.2)) := by
  apply List.map_congr_left
  intro p hp
  obtain ⟨k, d⟩ := p
  have hj := h _ hp
  have hv : (match d.value with | .nan => Value.null | v => v) = d.value := by
    cases hd : d.value <;> simp_all [jsonOfValue]
  simp only [hv]

theorem alistGet_map_value {α β : Type} (f : α → β) :
    ∀ (l : List (String × α)) (k : String) (a : α),
      (l.map Prod.fst).Nodup → (k, a) ∈ l →
      alistGet (l.map (fun p => (p.1, f p.2))) k = some (f a) := by
  intro l
  induction l with
  | nil => intro k a _ hm; simp at hm
  | cons p rest ih =>
    intro k a hnd hm
    obtain ⟨pk, pa⟩ := p
    simp only [List.map_cons, List.nodup_cons] at hnd
    rcases List.mem_cons.mp hm with heq | hmem
    · injection heq with h1 h2
      subst h1; subst h2
      simp [alistGet]
    · have hk : pk ≠ k := by
        intro hkk
        subst hkk
        exact hnd.1 (by simpa using List.mem_map_of_mem Prod.fst hmem)
      simp only [List.map_cons, alistGet, if_neg hk]
      exact ih k a hnd.2 hmem

theorem nodeOfPNode_pnodeOf {reg : Registry} {n : NodeInst}
    (hreg : RegOk reg) (hb : BuiltNode reg n) :
    nodeOfPNode reg (pnodeOf n) = n := by
  obtain ⟨nt, hlk, hprops⟩ := hb
  obtain ⟨hnd, hsafe⟩ := hreg _ _ hlk
  have hseed : n.properties = nt.properties.map (fun p => (p.1, PropEntry.descr p.2)) := by
    rw [hprops, seedProps_eq_of_safe hsafe]
  have hpn : (pnodeOf n).properties = nt.properties.map (fun p => (p.1, p.2.value)) := by
    show n.properties.filterMap _ = _
    rw [hseed, List.filterMap_map]
    apply List.filterMap_eq_map_iff_forall_eq_some.mpr
    intro p hp
    have := hsafe p hp
    simp only [Function.comp]
    rw [this]
    rfl
  refine NodeInst.ext rfl rfl rfl ?_
  show (nodeOfPNode reg (pnodeOf n)).properties = n.properties
  have htype : (pnodeOf n).type = n.type := rfl
  simp only [nodeOfPNode, htype, hlk]
  rw [hseed]
  apply List.map_congr_left
  intro p hp
  rw [hpn, alistGet_map_value (fun d => d.value) nt.properties p.1 p.2 hnd hp]
  rfl

theorem graph_roundtrip {reg : Registry} {g : Graph}
    (hreg : RegOk reg) (hb : BuiltGraph reg g) :
    graphOfPortable reg (portableOfGraph g) = g := by
  obtain ⟨hnodes, hvars⟩ := hb
  refine Graph.ext rfl rfl ?_ rfl ?_
  · show (g.nodes.map pnodeOf).map (nodeOfPNode reg) = g.nodes
    rw [List.map_map]
    have h : ∀ n ∈ g.nodes, (nodeOfPNode reg ∘ pnodeOf) n = id n := fun n hn =>
      nodeOfPNode_pnodeOf hreg (hnodes n hn)
    rw [List.map_congr_left h, List.map_id]
  · show mapFromList g.vars = g.vars
    rw [hvars]
    rfl

theorem storeBuilt_set {reg : Registry} {store : Store}
    (h : StoreBuilt reg store) {k : String} {g : Graph}
    (hg : BuiltGraph reg g) : StoreBuilt reg (alistSet store k g) := by
  intro k' g' hget
  rw [alistGet_set] at hget
  by_cases hk : k = k'
  · rw [if_pos hk] at hget
    cases hget
    exact hg
  · rw [if_neg hk] at hget
    exact h _ _ hget

theorem applyEdit_built {reg : Registry} {store : Store}
    (h : StoreBuilt reg store) (e : EditStep) :
    StoreBuilt reg (applyEdit reg store e) := by
  cases e with
  | create uuid =>
    simp only [applyEdit, createGraph]
    exact storeBuilt_set h ⟨fun n hn => by simp at hn, rfl⟩
  | add graphId ty pos time rand =>
    cases hg : alistGet store graphId with
    | none => simpa only [applyEdit, addNode, hg] using h
    | some g =>
      cases hl : lookupType reg ty with
      | none => simpa only [applyEdit, addNode, hg, hl] using h
      | some nt =>
        have hgb := h _ _ hg
        simp only [applyEdit, addNode, hg, hl]
        apply storeBuilt_set h
        refine ⟨?_, hgb.2⟩
        intro n hn
        rcases List.mem_append.mp hn with hm | hm
        · exact hgb.1 n hm
        · have : n = _ := List.mem_singleton.mp hm
          subst this
          exact ⟨nt, hl, rfl⟩
  | connect graphId s so t ti time rand =>
    cases hg : alistGet store graphId with
    | none => simpa only [applyEdit, connectNodes, hg] using h
    | some g =>
      have hgb := h _ _ hg
      simp only [applyEdit, connectNodes, hg]
      exact storeBuilt_set h ⟨hgb.1, hgb.2⟩

theorem applyEdits_built {reg : Registry} :
    ∀ (steps : List EditStep) (store : Store),
      StoreBuilt reg store → StoreBuilt reg (applyEdits reg store steps) := by
  intro steps
  induction steps with
  | nil => intro store h; exact h
  | cons e es ih => intro store h; exact ih _ (applyEdit_built h e)

/-- C3: for every graph built from an empty store by the editing API
(createGraph, addNode, connectNodes) under a loaded registry (whose
declared property keys are distinct and whose defaults survive JSON, true
of every JS-definable registry), serializing and deserializing reproduces
the graph exactly — node ids, types, positions, property tables,
connections, and the variables table. -/
theorem serialize_roundtrip (reg : Registry) (steps : List EditStep)
    (graphId : String) (g : Graph) (hreg : RegOk reg)
    (hg : alistGet (applyEdits reg [] steps) graphId = some g) :
    serializeGraph (applyEdits reg [] steps) graphId = some (portableOfGraph g) ∧
    graphOfPortable reg (portableOfGraph g) = g := by
  have hsb : StoreBuilt reg (applyEdits reg [] steps) :=
    applyEdits_built _ _ (fun k g' hk => by simp [alistGet] at hk)
  constructor
  · simp [serializeGraph, hg]
  · exact graph_roundtrip hreg (hsb _ _ hg)

/-! ### C7 — node id uniqueness (amended half)

The id `node_${time}_${rand}` determines the generating pair: the decimal
renderings are underscore-free and the rendering of a natural number is
injective, so distinct (time, rand) pairs give distinct ids. -/

theorem parseLE_digitsLEAux :
    ∀ fuel n, n < fuel → parseLE (digitsLEAux fuel n) = n := by
  intro fuel
  induction fuel with
  | zero => intro n h; omega
  | succ f ih =>
    intro n h
    by_cases h10 : n < 10
    · simp [digitsLEAux, h10, parseLE]
    · have h1 : n / 10 < n := Nat.div_lt_self (by omega) (by omega)
      have hdiv : n / 10 < f := by omega
      simp only [digitsLEAux, if_neg h10, parseLE, List.foldr_cons]
      have := ih (n / 10) hdiv
      rw [parseLE] at this
      rw [this]
      omega

theorem digitsLE_parse (n : Nat) : parseLE (digitsLE n) = n :=
  parseLE_digitsLEAux (n + 1) n (Nat.lt_succ_self n)

theorem digitsLEAux_lt_ten :
    ∀ fuel n, ∀ d ∈ digitsLEAux fuel n, d < 10 := by
  intro fuel
  induction fuel with
  | zero => intro n d hd; simp [digitsLEAux] at hd
  | succ f ih =>
    intro n d hd
    by_cases h10 : n < 10
    · simp [digitsLEAux, h10] at hd
      omega
    · simp only [digitsLEAux, if_neg h10, List.mem_cons] at hd
      rcases hd with rfl | hd
      · exact Nat.mod_lt n (by omega)
      · exact ih _ d hd

theorem digitsLE_lt_ten (n : Nat) : ∀ d ∈ digitsLE n, d < 10 :=
  digitsLEAux_lt_ten (n + 1) n

theorem digitChar_inj :
    ∀ d e, d < 10 → e < 10 → digitChar d = digitChar e → d = e := by
  intro d e hd he
  interval_cases d <;> interval_cases e <;> decide

theorem digitChar_ne_underscore : ∀ d, d < 10 → digitChar d ≠ '_' := by
  intro d hd
  interval_cases d <;> decide

theorem map_digitChar_inj :
    ∀ (l1 l2 : List Nat), (∀ d ∈ l1, d < 10) → (∀ d ∈ l2, d < 10) →
      l1.map digitChar = l2.map digitChar → l1 = l2 := by
  intro l1
  induction l1 with
  | nil =>
    intro l2 _ _ h
    cases l2 with
    | nil => rfl
    | cons b bs => simp at h
  | cons a as ih =>
    intro l2 h1 h2 h
    cases l2 with
    | nil => simp at h
    | cons b bs =>
      simp only [List.map_cons, List.cons.injEq] at h
      have ha : a = b :=
        digitChar_inj a b (h1 a (by simp)) (h2 b (by simp)) h.1
      rw [ha, ih bs (fun d hd => h1 d (by simp [hd]))
        (fun d hd => h2 d (by simp [hd])) h.2]

theorem natToString_inj :
    ∀ m n, natToString m = natToString n → m = n := by
  intro m n h
  have hdata : ((digitsLE m).reverse.map digitChar) =
      ((digitsLE n).reverse.map digitChar) := by
    injection h
  have hrev : (digitsLE m).reverse = (digitsLE n).reverse :=
    map_digitChar_inj _ _
      (fun d hd => digitsLE_lt_ten m d (List.mem_reverse.mp hd))
      (fun d hd => digitsLE_lt_ten n d (List.mem_reverse.mp hd)) hdata
  have hdig : digitsLE m = digitsLE n := List.reverse_inj.mp hrev
  rw [← digitsLE_parse m, ← digitsLE_parse n, hdig]

theorem natToString_no_underscore (n : Nat) : '_' ∉ (natToString n).data := by
  intro h
  simp only [natToString, List.mem_map] at h
  obtain ⟨d, hd, hdc⟩ := h
  exact digitChar_ne_underscore d
    (digitsLE_lt_ten n d (List.mem_reverse.mp hd)) hdc

theorem append_underscore_inj :
    ∀ (l1 l3 l2 l4 : List Char), '_' ∉ l1 → '_' ∉ l3 →
      l1 ++ '_' :: l2 = l3 ++ '_' :: l4 → l1 = l3 ∧ l2 = l4 := by
  intro l1
  induction l1 with
  | nil =>
    intro l3 l2 l4 _ h3 heq
    cases l3 with
    | nil => simpa using heq
    | cons c cs =>
      simp only [List.nil_append, List.cons_append, List.cons.injEq] at heq
      exact absurd (heq.1 ▸ List.mem_cons_self c cs) h3
  | cons a as ih =>
    intro l3 l2 l4 h1 h3 heq
    cases l3 with
    | nil =>
      simp only [List.nil_append, List.cons_append, List.cons.injEq] at heq
      exact absurd (heq.1 ▸ List.mem_cons_self a as) h1
    | cons c cs =>
      simp only [List.cons_append, List.cons.injEq] at heq
      obtain ⟨rfl, htail⟩ := heq
      have := ih cs l2 l4 (fun hm => h1 (List.mem_cons_of_mem _ hm))
        (fun hm => h3 (List.mem_cons_of_mem _ hm)) htail
      exact ⟨by rw [this.1], this.2⟩

theorem mkNodeId_inj {t r t' r' : Nat}
    (h : mkNodeId t r = mkNodeId t' r') : t = t' ∧ r = r' := by
  have h2 := congrArg String.data h
  simp only [mkNodeId, String.data_append, List.append_assoc] at h2
  have h3 : (natToString t).data ++ '_' :: (natToString r).data =
      (natToString t').data ++ '_' :: (natToString r').data := by
    have h4 := List.append_cancel_left h2
    simpa using h4
  obtain ⟨ht, hr⟩ := append_underscore_inj _ _ _ _
    (natToString_no_underscore t) (natToString_no_underscore t') h3
  exact ⟨natToString_inj t t' (String.ext ht),
         natToString_inj r r' (String.ext hr)⟩

theorem applyAddCalls_ids (reg : Registry) (gid : String) :
    ∀ (calls : List AddCall) (store : Store) (g : Graph),
      alistGet store gid = some g →
      ∃ sub : List (Nat × Nat),
        sub.Sublist (calls.map fun c => (c.time, c.rand)) ∧
        ∀ g', alistGet (applyAddCalls reg gid store calls) gid = some g' →
          nodeIds g' = nodeIds g ++ sub.map (fun p => mkNodeId p.1 p.2) := by
  intro calls
  induction calls with
  | nil =>
    intro store g hg
    refine ⟨[], List.nil_sublist _, fun g' hg' => ?_⟩
    rw [applyAddCalls] at hg'
    rw [hg] at hg'
    cases hg'
    simp
  | cons c cs ih =>
    intro store g hg
    cases hl : lookupType reg c.type with
    | none =>
      obtain ⟨sub, hsub, hids⟩ := ih store g hg
      refine ⟨sub, hsub.cons _, fun g' h' => hids g' ?_⟩
      rw [applyAddCalls] at h'
      simpa only [addNode, hg, hl] using h'
    | some nt =>
      have hg2 : alistGet
          (alistSet store gid
            { g with nodes := g.nodes ++
                [{ id := mkNodeId c.time c.rand, type := c.type,
                   position := c.position,
                   properties := seedProps nt.properties }] }) gid =
          some { g with nodes := g.nodes ++
              [{ id := mkNodeId c.time c.rand, type := c.type,
                 position := c.position,
                 properties := seedProps nt.properties }] } := by
        rw [alistGet_set, if_pos rfl]
      obtain ⟨sub, hsub, hids⟩ := ih _ _ hg2
      refine ⟨(c.time, c.rand) :: sub, hsub.cons₂ _, fun g' h' => ?_⟩
      have h'' := hids g' (by
        rw [applyAddCalls] at h'
        simpa only [addNode, hg, hl] using h')
      rw [h'']
      simp [nodeIds]

/-- C7 amended: every sequence of addNode calls on a freshly created
graph yields pairwise distinct node ids, provided the id-generation
inputs (Date.now() millisecond, Math.random() draw) form pairwise
distinct pairs across the calls. -/
theorem node_ids_distinct (reg : Registry) (store : Store) (gid : String)
    (g0 : Graph) (calls : List AddCall)
    (h0 : alistGet store gid = some g0) (hempty : g0.nodes = [])
    (hdist : (calls.map fun c => (c.time, c.rand)).Nodup) :
    ∀ g, alistGet (applyAddCalls reg gid store calls) gid = some g →
      (nodeIds g).Nodup := by
  obtain ⟨sub, hsub, hids⟩ := applyAddCalls_ids reg gid calls store g0 h0
  intro g hg
  rw [hids g hg]
  have h1 : nodeIds g0 = [] := by simp [nodeIds, hempty]
  rw [h1, List.nil_append]
  refine List.Nodup.map ?_ (hsub.nodup hdist)
  intro p q hpq
  obtain ⟨h1, h2⟩ := mkNodeId_inj hpq
  exact Prod.ext h1 h2

theorem node_ids_distinct_witness :
    alistGet (applyAddCalls defaultRegistry "w7" c7wStore c7Calls) "w7" =
      some c7wGraph ∧
    (nodeIds c7wGraph).Nodup :=
  ⟨by decide,
   node_ids_distinct defaultRegistry c7wStore "w7" (createGraph [] "w7").2
     c7Calls rfl rfl (by decide) c7wGraph (by decide)⟩

theorem serialize_roundtrip_witness :
    alistGet (applyEdits defaultRegistry [] c3Steps) "o" = some c3Graph ∧
    (serializeGraph (applyEdits defaultRegistry [] c3Steps) "o" =
      some (portableOfGraph c3Graph) ∧
     graphOfPortable defaultRegistry (portableOfGraph c3Graph) = c3Graph) :=
  ⟨by decide,
   serialize_roundtrip defaultRegistry c3Steps "o" c3Graph
     (regOk_of_regOkB (by decide)) (by decide)⟩

/-! ### C8 — termination of graph execution -/

theorem cycle_pair : ∀ fuel,
    executeNode defaultRegistry fuel cycleGraph 0 ({} : Ctx) = none ∧
    executeNode defaultRegistry fuel cycleGraph 1 ({} : Ctx) = none := by
  intro fuel
  induction fuel with
  | zero => exact ⟨rfl, rfl⟩
  | succ f ih =>
    constructor
    · simp only [executeNode]
      simp [cycleGraph, defaultRegistry, registerNodeType, alistSet, lookupType,
        alistGet, onStartType, setNodeAt, connsFrom, findNodeIdx, findIdxFrom,
        runFlow, runMultiPorts, runMultiConns, propagateValues]
      intro a b hc
      exact Option.noConfusion (ih.2.symm.trans hc)
    · simp only [executeNode]
      simp [cycleGraph, defaultRegistry, registerNodeType, alistSet, lookupType,
        alistGet, onStartType, setNodeAt, connsFrom, findNodeIdx, findIdxFrom,
        runFlow, runMultiPorts, runMultiConns, propagateValues]
      intro a b hc
      exact Option.noConfusion (ih.1.symm.trans hc)

/-- C8 counterexample: on the two-node OnStart cycle no fuel bound ever
suffices — neither the tick (executeGraph) nor the node traversal
(executeNode) terminates, refuting termination for cyclic connection
topologies. -/
theorem cyclic_graph_diverges :
    ¬ TerminatesGraph defaultRegistry [("c8", cycleGraph)] "c8" {} ∧
    ¬ Terminates defaultRegistry cycleGraph 0 {} := by
  constructor
  · rintro ⟨fuel, hne⟩
    apply hne
    have hroots : execRoots defaultRegistry fuel ({} : Ctx) cycleGraph
        (eventIndices defaultRegistry cycleGraph) = none := by
      have hev : eventIndices defaultRegistry cycleGraph = [0, 1] := by decide
      rw [hev]
      simp [execRoots, (cycle_pair fuel).1]
    have hunfold : executeGraph defaultRegistry fuel [("c8", cycleGraph)] true
        "c8" ({} : Ctx) =
        (execRoots defaultRegistry fuel ({} : Ctx) cycleGraph
          (eventIndices defaultRegistry cycleGraph)).bind
          (fun r => some (alistSet [("c8", cycleGraph)] "c8" r.1, r.2)) := rfl
    rw [hunfold, hroots]
    rfl
  · rintro ⟨fuel, hne⟩
    exact hne (cycle_pair fuel).1

theorem findIdxFrom_shift (p : NodeInst → Bool) :
    ∀ (l : List NodeInst) (i : Nat),
      findIdxFrom p i l = (findIdxFrom p 0 l).map (· + i) := by
  intro l
  induction l with
  | nil => intro i; rfl
  | cons n ns ih =>
    intro i
    by_cases hp : p n
    · simp [findIdxFrom, hp]
    · simp only [findIdxFrom, if_neg hp]
      rw [ih (i + 1), ih 1, Option.map_map]
      congr 1
      funext x
      simp only [Function.comp]
      omega

theorem findIdxFrom_spec (p : NodeInst → Bool) :
    ∀ (l : List NodeInst) (j : Nat), findIdxFrom p 0 l = some j →
      ∃ n, l[j]? = some n ∧ p n = true := by
  intro l
  induction l with
  | nil => intro j h; simp [findIdxFrom] at h
  | cons x xs ih =>
    intro j h
    by_cases hp : p x
    · simp [findIdxFrom, hp] at h
      exact ⟨x, by simp [← h], hp⟩
    · simp only [findIdxFrom, if_neg hp] at h
      rw [findIdxFrom_shift] at h
      cases hf : findIdxFrom p 0 xs with
      | none => rw [hf] at h; simp at h
      | some j' =>
        rw [hf] at h
        simp only [Option.map_some', Option.some.injEq] at h
        obtain ⟨n, hn, hpn⟩ := ih j' hf
        exact ⟨n, by rw [← h]; simpa using hn, hpn⟩

theorem findNodeIdx_spec {g : Graph} {nid : String} {j : Nat}
    (h : findNodeIdx g nid = some j) :
    ∃ n, g.nodes[j]? = some n ∧ n.id = nid := by
  obtain ⟨n, hn, hp⟩ := findIdxFrom_spec _ g.nodes j h
  exact ⟨n, hn, by simpa using hp⟩

theorem nodeIds_setNodeAt {g : Graph} {j : Nat} {n n' : NodeInst}
    (h : g.nodes[j]? = some n) (hid : n'.id = n.id) :
    nodeIds (setNodeAt g j n') = nodeIds g := by
  simp only [nodeIds, setNodeAt, List.map_set]
  apply list_set_self
  rw [List.getElem?_map, h]
  simp [hid]

theorem writeValue_shape (g : Graph) (c : Connection) (v : Value) :
    (writeValue g c v).connections = g.connections ∧
    nodeIds (writeValue g c v) = nodeIds g := by
  cases h : findNodeIdx g c.targetNodeId with
  | none => simp [writeValue, h]
  | some j =>
    cases hn : g.nodes[j]? with
    | none => simp [writeValue, h, hn]
    | some n =>
      cases he : alistGet n.properties c.targetInput with
      | none => simp [writeValue, h, hn, he]
      | some e =>
        cases e with
        | descr d =>
          constructor
          · simp [writeValue, h, hn, he, setNodeAt]
          · simp only [writeValue, h, hn, he]
            exact nodeIds_setNodeAt hn rfl
        | raw v' => simp [writeValue, h, hn, he]

theorem foldl_writeValue_shape (v : Value) :
    ∀ (conns : List Connection) (g : Graph),
      (conns.foldl (fun g' c => writeValue g' c v) g).connections = g.connections ∧
      nodeIds (conns.foldl (fun g' c => writeValue g' c v) g) = nodeIds g := by
  intro conns
  induction conns with
  | nil => intro g; exact ⟨rfl, rfl⟩
  | cons c cs ih =>
    intro g
    simp only [List.foldl_cons]
    obtain ⟨h1, h2⟩ := ih (writeValue g c v)
    obtain ⟨h3, h4⟩ := writeValue_shape g c v
    exact ⟨h1.trans h3, h2.trans h4⟩

theorem propagateValues_shape (nid : String) :
    ∀ (vs : List (String × Value)) (g : Graph),
      (propagateValues nid g vs).connections = g.connections ∧
      nodeIds (propagateValues nid g vs) = nodeIds g := by
  intro vs
  induction vs with
  | nil => intro g; exact ⟨rfl, rfl⟩
  | cons pv rest ih =>
    intro g
    obtain ⟨pt, v⟩ := pv
    simp only [propagateValues]
    obtain ⟨h1, h2⟩ :=
      ih ((connsFrom g nid pt).foldl (fun g' c => writeValue g' c v) g)
    obtain ⟨h3, h4⟩ := foldl_writeValue_shape v (connsFrom g nid pt) g
    exact ⟨h1.trans h3, h2.trans h4⟩

theorem runFlow_total (rank : String → Nat) (C : List Connection)
    (I : List String) (fl : Nat)
    (exec : Graph → Nat → Option (Graph × List String))
    (hexec : ∀ g j n, g.connections = C → nodeIds g = I →
      g.nodes[j]? = some n → rank n.id < fl →
      ∃ g' tr, exec g j = some (g', tr) ∧ g'.connections = C ∧ nodeIds g' = I) :
    ∀ (conns : List Connection) (g : Graph),
      (∀ c ∈ conns, rank c.targetNodeId < fl) →
      g.connections = C → nodeIds g = I →
      ∃ g' tr, runFlow exec g conns = some (g', tr) ∧
        g'.connections = C ∧ nodeIds g' = I := by
  intro conns
  induction conns with
  | nil => intro g _ hC hI; exact ⟨g, [], rfl, hC, hI⟩
  | cons c cs ih =>
    intro g hb hC hI
    cases hf : findNodeIdx g c.targetNodeId with
    | none =>
      obtain ⟨g', tr, hr, hC', hI'⟩ :=
        ih g (fun c' hc' => hb c' (List.mem_cons_of_mem _ hc')) hC hI
      exact ⟨g', tr, by simp [runFlow, hf, hr], hC', hI'⟩
    | some j =>
      obtain ⟨n, hn, hid⟩ := findNodeIdx_spec hf
      obtain ⟨g1, tr1, he, hC1, hI1⟩ := hexec g j n hC hI hn
        (by rw [hid]; exact hb c (List.mem_cons_self _ _))
      obtain ⟨g2, tr2, hr, hC2, hI2⟩ :=
        ih g1 (fun c' hc' => hb c' (List.mem_cons_of_mem _ hc')) hC1 hI1
      exact ⟨g2, tr1 ++ tr2, by simp [runFlow, hf, he, hr], hC2, hI2⟩

theorem runMultiConns_total (rank : String → Nat) (C : List Connection)
    (I : List String) (fl : Nat) (seqFlag : Bool)
    (exec : Graph → Nat → Option (Graph × List String))
    (hexec : ∀ g j n, g.connections = C → nodeIds g = I →
      g.nodes[j]? = some n → rank n.id < fl →
      ∃ g' tr, exec g j = some (g', tr) ∧ g'.connections = C ∧ nodeIds g' = I) :
    ∀ (conns : List Connection) (g : Graph),
      (∀ c ∈ conns, rank c.targetNodeId < fl) →
      g.connections = C → nodeIds g = I →
      ∃ g' tr e, runMultiConns exec seqFlag g conns = some (g', tr, e) ∧
        g'.connections = C ∧ nodeIds g' = I := by
  intro conns
  induction conns with
  | nil => intro g _ hC hI; exact ⟨g, [], false, rfl, hC, hI⟩
  | cons c cs ih =>
    intro g hb hC hI
    cases hf : findNodeIdx g c.targetNodeId with
    | none =>
      obtain ⟨g', tr, e, hr, hC', hI'⟩ :=
        ih g (fun c' hc' => hb c' (List.mem_cons_of_mem _ hc')) hC hI
      exact ⟨g', tr, e, by simp [runMultiConns, hf, hr], hC', hI'⟩
    | some j =>
      obtain ⟨n, hn, hid⟩ := findNodeIdx_spec hf
      obtain ⟨g1, tr1, he, hC1, hI1⟩ := hexec g j n hC hI hn
        (by rw [hid]; exact hb c (List.mem_cons_self _ _))
      cases seqFlag with
      | true => exact ⟨g1, tr1, true, by simp [runMultiConns, hf, he], hC1, hI1⟩
      | false =>
        obtain ⟨g2, tr2, e, hr, hC2, hI2⟩ :=
          ih g1 (fun c' hc' => hb c' (List.mem_cons_of_mem _ hc')) hC1 hI1
        exact ⟨g2, tr1 ++ tr2, e, by simp [runMultiConns, hf, he, hr], hC2, hI2⟩

theorem runMultiPorts_total (rank : String → Nat) (C : List Connection)
    (I : List String) (fl : Nat) (seqFlag : Bool) (nid : String)
    (exec : Graph → Nat → Option (Graph × List String))
    (hexec : ∀ g j n, g.connections = C → nodeIds g = I →
      g.nodes[j]? = some n → rank n.id < fl →
      ∃ g' tr, exec g j = some (g', tr) ∧ g'.connections = C ∧ nodeIds g' = I)
    (hrankC : ∀ c ∈ C, rank c.targetNodeId < rank c.sourceNodeId)
    (hnid : rank nid ≤ fl) :
    ∀ (ports : List String) (g : Graph),
      g.connections = C → nodeIds g = I →
      ∃ g' tr e, runMultiPorts exec seqFlag nid g ports = some (g', tr, e) ∧
        g'.connections = C ∧ nodeIds g' = I := by
  intro ports
  induction ports with
  | nil => intro g hC hI; exact ⟨g, [], false, rfl, hC, hI⟩
  | cons p ps ih =>
    intro g hC hI
    have hb : ∀ c ∈ connsFrom g nid p, rank c.targetNodeId < fl := by
      intro c hc
      simp only [connsFrom, List.mem_filter, decide_eq_true_eq] at hc
      have hmem : c ∈ C := hC ▸ hc.1
      have := hrankC c hmem
      rw [hc.2.1] at this
      omega
    obtain ⟨g1, tr1, e1, h1, hC1, hI1⟩ :=
      runMultiConns_total rank C I fl seqFlag exec hexec (connsFrom g nid p)
        g hb hC hI
    cases e1 with
    | true => exact ⟨g1, tr1, true, by simp [runMultiPorts, h1], hC1, hI1⟩
    | false =>
      obtain ⟨g2, tr2, e2, h2, hC2, hI2⟩ := ih g1 hC1 hI1
      exact ⟨g2, tr1 ++ tr2, e2, by simp [runMultiPorts, h1, h2], hC2, hI2⟩

theorem executeNode_total (reg : Registry) (rank : String → Nat)
    (hexec : ExecIdOk reg) (C : List Connection) (I : List String)
    (hrankC : ∀ c ∈ C, rank c.targetNodeId < rank c.sourceNodeId) (ctx : Ctx) :
    ∀ (fuel : Nat) (g : Graph) (idx : Nat) (n : NodeInst),
      g.connections = C → nodeIds g = I → g.nodes[idx]? = some n →
      rank n.id < fuel →
      ∃ g' tr, executeNode reg fuel g idx ctx = some (g', tr) ∧
        g'.connections = C ∧ nodeIds g' = I := by
  intro fuel
  induction fuel with
  | zero => intro g idx n _ _ _ hlt; omega
  | succ f ih =>
    intro g idx n hC hI hn hlt
    cases hlk : lookupType reg n.type with
    | none => exact ⟨g, [], by simp [executeNode, hn, hlk], hC, hI⟩
    | some nt =>
      cases hex : nt.execute with
      | none => exact ⟨g, [], by simp [executeNode, hn, hlk, hex], hC, hI⟩
      | some exf =>
        cases hp : exf n ctx with
        | mk node' res? =>
          have hid : node'.id = n.id := by
            have h0 := hexec n.type nt hlk exf hex n ctx
            rw [hp] at h0
            exact h0
          have hC1 : (setNodeAt g idx node').connections = C := hC
          have hI1 : nodeIds (setNodeAt g idx node') = I := by
            rw [nodeIds_setNodeAt hn hid]; exact hI
          cases res? with
          | none =>
            exact ⟨setNodeAt g idx node', [n.id],
              by simp [executeNode, hn, hlk, hex, hp], hC1, hI1⟩
          | some res =>
            have hexecF : ∀ g' j n', g'.connections = C → nodeIds g' = I →
                g'.nodes[j]? = some n' → rank n'.id < f →
                ∃ g'' tr, executeNode reg f g' j ctx = some (g'', tr) ∧
                  g''.connections = C ∧ nodeIds g'' = I :=
              fun g' j n' a b c d => ih g' j n' a b c d
            have hnid : rank node'.id ≤ f := by rw [hid]; omega
            have hbnd : ∀ (gx : Graph) (p : String), gx.connections = C →
                ∀ c ∈ connsFrom gx node'.id p, rank c.targetNodeId < f := by
              intro gx p hgx c hc
              simp only [connsFrom, List.mem_filter, decide_eq_true_eq] at hc
              have hmem : c ∈ C := hgx ▸ hc.1
              have := hrankC c hmem
              rw [hc.2.1] at this
              omega
            cases hrf : res.flow with
            | none =>
              cases hmf : res.multiFlow with
              | nil =>
                refine ⟨propagateValues node'.id (setNodeAt g idx node') res.values,
                  [n.id], ?_, ?_, ?_⟩
                · simp [executeNode, hn, hlk, hex, hp, hrf, hmf]
                · exact ((propagateValues_shape _ _ _).1).trans hC1
                · exact ((propagateValues_shape _ _ _).2).trans hI1
              | cons p0 ps0 =>
                obtain ⟨g3, trM, e, h3, hC3, hI3⟩ :=
                  runMultiPorts_total rank C I f res.sequential node'.id _
                    hexecF hrankC hnid (p0 :: ps0) _ hC1 hI1
                cases e with
                | true =>
                  exact ⟨g3, n.id :: trM,
                    by simp [executeNode, hn, hlk, hex, hp, hrf, hmf, h3],
                    hC3, hI3⟩
                | false =>
                  refine ⟨propagateValues node'.id g3 res.values, n.id :: trM,
                    ?_, ?_, ?_⟩
                  · simp [executeNode, hn, hlk, hex, hp, hrf, hmf, h3]
                  · exact ((propagateValues_shape _ _ _).1).trans hC3
                  · exact ((propagateValues_shape _ _ _).2).trans hI3
            | some p =>
              by_cases hps : p = ""
              · subst hps
                cases hmf : res.multiFlow with
                | nil =>
                  refine ⟨propagateValues node'.id (setNodeAt g idx node') res.values,
                    [n.id], ?_, ?_, ?_⟩
                  · simp [executeNode, hn, hlk, hex, hp, hrf, hmf]
                  · exact ((propagateValues_shape _ _ _).1).trans hC1
                  · exact ((propagateValues_shape _ _ _).2).trans hI1
                | cons p0 ps0 =>
                  obtain ⟨g3, trM, e, h3, hC3, hI3⟩ :=
                    runMultiPorts_total rank C I f res.sequential node'.id _
                      hexecF hrankC hnid (p0 :: ps0) _ hC1 hI1
                  cases e with
                  | true =>
                    exact ⟨g3, n.id :: trM,
                      by simp [executeNode, hn, hlk, hex, hp, hrf, hmf, h3],
                      hC3, hI3⟩
                  | false =>
                    refine ⟨propagateValues node'.id g3 res.values, n.id :: trM,
                      ?_, ?_, ?_⟩
                    · simp [executeNode, hn, hlk, hex, hp, hrf, hmf, h3]
                    · exact ((propagateValues_shape _ _ _).1).trans hC3
                    · exact ((propagateValues_shape _ _ _).2).trans hI3
              · obtain ⟨g2, trF, h2, hC2, hI2⟩ :=
                  runFlow_total rank C I f _ hexecF
                    (connsFrom (setNodeAt g idx node') node'.id p) _
                    (hbnd _ p hC1) hC1 hI1
                cases hmf : res.multiFlow with
                | nil =>
                  refine ⟨propagateValues node'.id g2 res.values, n.id :: trF,
                    ?_, ?_, ?_⟩
                  · simp [executeNode, hn, hlk, hex, hp, hrf, hmf, hps, h2]
                  · exact ((propagateValues_shape _ _ _).1).trans hC2
                  · exact ((propagateValues_shape _ _ _).2).trans hI2
                | cons p0 ps0 =>
                  obtain ⟨g3, trM, e, h3, hC3, hI3⟩ :=
                    runMultiPorts_total rank C I f res.sequential node'.id _
                      hexecF hrankC hnid (p0 :: ps0) _ hC2 hI2
                  cases e with
                  | true =>
                    exact ⟨g3, n.id :: (trF ++ trM),
                      by simp [executeNode, hn, hlk, hex, hp, hrf, hmf, hps, h2, h3],
                      hC3, hI3⟩
                  | false =>
                    refine ⟨propagateValues node'.id g3 res.values,
                      n.id :: (trF ++ trM), ?_, ?_, ?_⟩
                    · simp [executeNode, hn, hlk, hex, hp, hrf, hmf, hps, h2, h3]
                    · exact ((propagateValues_shape _ _ _).1).trans hC3
                    · exact ((propagateValues_shape _ _ _).2).trans hI3

theorem le_foldr_max (rank : String → Nat) :
    ∀ (l : List String) (s : String), s ∈ l →
      rank s ≤ l.foldr (fun x acc => max (rank x) acc) 0 := by
  intro l
  induction l with
  | nil => intro s h; simp at h
  | cons x xs ih =>
    intro s h
    rcases List.mem_cons.mp h with rfl | h'
    · exact Nat.le_max_left _ _
    · exact le_trans (ih s h') (Nat.le_max_right _ _)

theorem eventIndices_lt (reg : Registry) (g : Graph) :
    ∀ i ∈ eventIndices reg g, i < g.nodes.length := by
  intro i hi
  simp only [eventIndices, List.mem_filter, List.mem_range] at hi
  exact hi.1

theorem execRoots_total (reg : Registry) (rank : String → Nat)
    (hexec : ExecIdOk reg) (C : List Connection) (I : List String)
    (hrankC : ∀ c ∈ C, rank c.targetNodeId < rank c.sourceNodeId)
    (ctx : Ctx) (fuel : Nat) :
    ∀ (idxs : List Nat) (g : Graph), g.connections = C → nodeIds g = I →
      (∀ i ∈ idxs, ∀ s, I[i]? = some s → rank s < fuel) →
      (∀ i ∈ idxs, i < I.length) →
      ∃ g' tr, execRoots reg fuel ctx g idxs = some (g', tr) ∧
        g'.connections = C ∧ nodeIds g' = I := by
  intro idxs
  induction idxs with
  | nil => intro g hC hI _ _; exact ⟨g, [], rfl, hC, hI⟩
  | cons i is ih =>
    intro g hC hI hb hlen
    have hilen : i < g.nodes.length := by
      have h1 := hlen i (List.mem_cons_self _ _)
      have h2 : I.length = g.nodes.length := by
        rw [← hI]; simp [nodeIds]
      omega
    have hn : g.nodes[i]? = some (g.nodes.get ⟨i, hilen⟩) :=
      List.getElem?_eq_getElem hilen
    have hidI : I[i]? = some (g.nodes.get ⟨i, hilen⟩).id := by
      rw [← hI]
      simp only [nodeIds, List.getElem?_map, hn, Option.map_some']
    have hr : rank (g.nodes.get ⟨i, hilen⟩).id < fuel :=
      hb i (List.mem_cons_self _ _) _ hidI
    obtain ⟨g1, tr1, h1, hC1, hI1⟩ :=
      executeNode_total reg rank hexec C I hrankC ctx fuel g i _ hC hI hn hr
    obtain ⟨g2, tr2, h2, hC2, hI2⟩ := ih g1 hC1 hI1
      (fun j hj s hs => hb j (List.mem_cons_of_mem _ hj) s hs)
      (fun j hj => hlen j (List.mem_cons_of_mem _ hj))
    exact ⟨g2, tr1 ++ tr2, by simp [execRoots, h1, h2], hC2, hI2⟩

/-- C8 amended: graph execution terminates whenever the connection
topology is acyclic, witnessed by a rank that strictly decreases along
every connection, and the registered execute functions keep node ids
stable (as the whole built-in catalog does): some fuel bound suffices for
the tick (executeGraph) and for executeNode from any node. On a cyclic
topology no bound suffices (see the counterexample). -/
theorem execution_terminates_on_acyclic (reg : Registry) (rank : String → Nat)
    (store : Store) (graphId : String) (g : Graph) (ctx : Ctx)
    (hexec : ExecIdOk reg) (hg : alistGet store graphId = some g)
    (hrank : RankOk rank g) :
    TerminatesGraph reg store graphId ctx ∧
    ∀ idx, Terminates reg g idx ctx := by
  constructor
  · refine ⟨(nodeIds g).foldr (fun s acc => max (rank s) acc) 0 + 1, ?_⟩
    have hb : ∀ i ∈ eventIndices reg g, ∀ s, (nodeIds g)[i]? = some s →
        rank s < (nodeIds g).foldr (fun s acc => max (rank s) acc) 0 + 1 := by
      intro i _ s hs
      have hmem : s ∈ nodeIds g := List.getElem?_mem hs
      have := le_foldr_max rank (nodeIds g) s hmem
      omega
    have hlen : ∀ i ∈ eventIndices reg g, i < (nodeIds g).length := by
      intro i hi
      have := eventIndices_lt reg g i hi
      simpa [nodeIds] using this
    obtain ⟨g', tr, hr, _, _⟩ := execRoots_total reg rank hexec g.connections
      (nodeIds g) hrank ctx _ (eventIndices reg g) g rfl rfl hb hlen
    simp [executeGraph, hg, hr]
  · intro idx
    cases hn : g.nodes[idx]? with
    | none => exact ⟨1, by simp [executeNode, hn]⟩
    | some n =>
      obtain ⟨g', tr, h, _, _⟩ := executeNode_total reg rank hexec
        g.connections (nodeIds g) hrank ctx (rank n.id + 1) g idx n rfl rfl hn
        (by omega)
      exact ⟨rank n.id + 1, by simp [h]⟩

theorem execIdOk_probeRegistry : ExecIdOk probeRegistry := by
  intro k nt hlk f hf n ctx
  have hmem := alistGet_mem hlk
  have hpr : probeRegistry =
      [("OnStart", onStartType), ("OnUpdate", onUpdateType),
       ("OnCollision", onCollisionType), ("Branch", branchType),
       ("Sequence", sequenceType), ("Add", addType),
       ("Multiply", multiplyType), ("GetPosition", getPositionType),
       ("SetPosition", setPositionType), ("ApplyForce", applyForceType),
       ("Probe", probeType)] := rfl
  rw [hpr] at hmem
  simp only [List.mem_cons, List.not_mem_nil, or_false] at hmem
  rcases hmem with h | h | h | h | h | h | h | h | h | h | h
  all_goals (injection h with h1 h2; subst h2)
  · simp only [onStartType] at hf
    injection hf with hf2
    subst hf2
    rfl
  · simp only [onUpdateType] at hf
    injection hf with hf2
    subst hf2
    rfl
  · simp only [onCollisionType] at hf
    injection hf with hf2
    subst hf2
    cases hco : ctx.collisionOther <;> simp [hco, setRawProp]
  · simp only [branchType] at hf
    injection hf with hf2
    subst hf2
    rfl
  · simp only [sequenceType] at hf
    injection hf with hf2
    subst hf2
    rfl
  · simp only [addType] at hf
    injection hf with hf2
    subst hf2
    rfl
  · simp only [multiplyType] at hf
    injection hf with hf2
    subst hf2
    rfl
  · simp only [getPositionType] at hf
    injection hf with hf2
    subst hf2
    rcases hjs : jsOr (getInputValue n "Object") ctx.object with
      q | _ | b | o | ⟨x, y, z⟩ | _ | _
    · simp [hjs]
    · simp [hjs]
    · simp [hjs]
    · cases hps : ctx.positions o with
      | none => simp [hjs, hps]
      | some t =>
        obtain ⟨x, y, z⟩ := t
        simp [hjs, hps, setRawProp]
    · simp [hjs]
    · simp [hjs]
    · simp [hjs]
  · simp only [setPositionType] at hf
    injection hf with hf2
    subst hf2
    rfl
  · simp only [applyForceType] at hf
    injection hf with hf2
    subst hf2
    rfl
  · simp only [probeType] at hf
    injection hf with hf2
    subst hf2
    rfl

theorem execution_terminates_on_acyclic_witness :
    RankOk chainRank chainGraph ∧
    (TerminatesGraph probeRegistry [("c8w", chainGraph)] "c8w" {} ∧
     Terminates probeRegistry chainGraph 0 {}) :=
  ⟨by unfold RankOk; decide,
   (execution_terminates_on_acyclic probeRegistry chainRank
     [("c8w", chainGraph)] "c8w" chainGraph {} execIdOk_probeRegistry rfl
     (by unfold RankOk; decide)).1,
   (execution_terminates_on_acyclic probeRegistry chainRank
     [("c8w", chainGraph)] "c8w" chainGraph {} execIdOk_probeRegistry rfl
     (by unfold RankOk; decide)).2 0⟩

end Vivid
